import Mathlib

/-!
Verification of the osbuild release-action scripts.

The development shallowly embeds the two Python sources:
  - create_tag.py          (version bumping, tag selection, commit/PR
                            correlation, changelog assembly, release gating)
  - slack_notify_release.py (markdown-to-Slack formatting, dry-run / live
                            notification control flow)

Machine integers are modelled as Nat (all quantities involved are
non-negative and no overflow-sensitive arithmetic occurs in the source).
Fallible calls are modelled with Option / Except.  The GitHub and Slack
clients are external collaborators and appear as oracle records whose
fields return Except values; a raised exception in Python is an
Except.error that propagates exactly where the source lacks a try block.
-/

/-! ## Python string order

Python compares strings lexicographically by code point.  The builtin
sorted returns the ascending reordering of its input; since the order on
strings is total and antisymmetric, any correct sort produces the same
list, so we model sorted with insertion sort. -/

/-- Lexicographic code-point comparison of character lists, the order
Python uses on str values. -/
def lexLeChars : List Char → List Char → Bool
  | [], _ => true
  | _ :: _, [] => false
  | a :: as, b :: bs =>
    if a.toNat < b.toNat then true
    else if b.toNat < a.toNat then false
    else lexLeChars as bs

/-- Python string comparison (code-point lexicographic), as a Bool. -/
def pyStrLe (a b : String) : Bool := lexLeChars a.data b.data

/-- Python string comparison as a Prop, used as the sort relation. -/
def pyLe : String → String → Prop := fun a b => pyStrLe a b = true

instance : DecidableRel pyLe := fun a b => by unfold pyLe; infer_instance

theorem lexLeChars_total (a b : List Char) :
    lexLeChars a b = true ∨ lexLeChars b a = true := by
  induction a generalizing b with
  | nil => left; rfl
  | cons x xs ih =>
    cases b with
    | nil => right; rfl
    | cons y ys =>
      rcases Nat.lt_trichotomy x.toNat y.toNat with h | h | h
      · left; simp [lexLeChars, h]
      · have hxy : ¬ x.toNat < y.toNat := by omega
        have hyx : ¬ y.toNat < x.toNat := by omega
        rcases ih ys with h2 | h2
        · left; simp [lexLeChars, hxy, hyx, h2]
        · right; simp [lexLeChars, hxy, hyx, h2]
      · right; simp [lexLeChars, h]

theorem lexLeChars_trans {a b c : List Char} (hab : lexLeChars a b = true)
    (hbc : lexLeChars b c = true) : lexLeChars a c = true := by
  induction a generalizing b c with
  | nil => rfl
  | cons x xs ih =>
    cases b with
    | nil => simp [lexLeChars] at hab
    | cons y ys =>
      cases c with
      | nil => simp [lexLeChars] at hbc
      | cons z zs =>
        simp only [lexLeChars] at hab hbc ⊢
        rcases Nat.lt_trichotomy x.toNat y.toNat with h1 | h1 | h1
        · rcases Nat.lt_trichotomy y.toNat z.toNat with h2 | h2 | h2
          · simp [show x.toNat < z.toNat by omega]
          · simp [show x.toNat < z.toNat by omega]
          · simp [show ¬ y.toNat < z.toNat by omega, h2] at hbc
        · rcases Nat.lt_trichotomy y.toNat z.toNat with h2 | h2 | h2
          · simp [show x.toNat < z.toNat by omega]
          · simp only [show ¬ x.toNat < y.toNat by omega, if_false,
              show ¬ y.toNat < x.toNat by omega,
              show ¬ y.toNat < z.toNat by omega,
              show ¬ z.toNat < y.toNat by omega] at hab hbc
            simp only [show ¬ x.toNat < z.toNat by omega, if_false,
              show ¬ z.toNat < x.toNat by omega]
            exact ih hab hbc
          · simp [show ¬ y.toNat < z.toNat by omega, h2] at hbc
        · simp [show ¬ x.toNat < y.toNat by omega, h1] at hab

theorem lexLeChars_antisymm {a b : List Char} (hab : lexLeChars a b = true)
    (hba : lexLeChars b a = true) : a = b := by
  induction a generalizing b with
  | nil =>
    cases b with
    | nil => rfl
    | cons y ys => simp [lexLeChars] at hba
  | cons x xs ih =>
    cases b with
    | nil => simp [lexLeChars] at hab
    | cons y ys =>
      simp only [lexLeChars] at hab hba
      rcases Nat.lt_trichotomy x.toNat y.toNat with h1 | h1 | h1
      · simp [show ¬ y.toNat < x.toNat by omega, h1] at hba
      · have hx : x = y := Char.ext (UInt32.ext (show x.toNat = y.toNat from h1))
        simp only [show ¬ x.toNat < y.toNat by omega, if_false,
          show ¬ y.toNat < x.toNat by omega] at hab hba
        rw [hx, ih hab hba]
      · simp [show ¬ x.toNat < y.toNat by omega, h1] at hab

instance : IsTotal String pyLe :=
  ⟨fun a b => lexLeChars_total a.data b.data⟩

instance : IsTrans String pyLe :=
  ⟨fun _ _ _ hab hbc => lexLeChars_trans hab hbc⟩

instance : IsAntisymm String pyLe :=
  ⟨fun _ _ hab hba => String.ext (lexLeChars_antisymm hab hba)⟩

/-! ## Version parsing (packaging.Version, numeric-release fragment)

create_tag.py parses tags with packaging.version.Version.  The tags this
repository works with are plain numeric dotted versions, optionally with
the PEP 440 v prefix; we model exactly that fragment: an optional leading
v or V followed by dot-separated decimal components.  Such versions carry
no epoch, pre, post, dev or local part, so the PEP 440 comparison key
degenerates to the release tuple with trailing zeros stripped, compared
lexicographically, which is what versionLe implements.  Version.major,
minor and micro are the first, second and third release components,
defaulting to 0. -/

/-- Numeric value of a decimal digit character, none if not a digit. -/
def digitVal (c : Char) : Option Nat :=
  if '0'.toNat ≤ c.toNat ∧ c.toNat ≤ '9'.toNat then some (c.toNat - '0'.toNat)
  else none

/-- Parse a non-empty all-digit character list as a decimal Nat. -/
def parseNatChars (l : List Char) : Option Nat :=
  match l with
  | [] => none
  | _ =>
    l.foldl
      (fun acc c =>
        match acc, digitVal c with
        | some n, some d => some (n * 10 + d)
        | _, _ => none)
      (some 0)

/-- Split a character list at every occurrence of a separator character
(Python str.split with a single-character separator). -/
def splitOnChar (sep : Char) : List Char → List (List Char)
  | [] => [[]]
  | c :: rest =>
    if c = sep then [] :: splitOnChar sep rest
    else
      match splitOnChar sep rest with
      | [] => [[c]]
      | h :: t => (c :: h) :: t

/-- Split a character list at every dot, the component structure of a
dotted version string. -/
def splitOnDot (l : List Char) : List (List Char) := splitOnChar '.' l

/-- Model of packaging Version for plain numeric tags: optional leading
v or V, then dot-separated decimal components, yielding the release
tuple.  Anything else (as none) makes the Version constructor raise. -/
def parseVersion (s : String) : Option (List Nat) :=
  let t := match s.data with
    | 'v' :: rest => rest
    | 'V' :: rest => rest
    | l => l
  (splitOnDot t).mapM parseNatChars

/-- release[0], defaulting to 0 (packaging Version.major). -/
def vmajor (r : List Nat) : Nat := r.getD 0 0

/-- release[1], defaulting to 0 (packaging Version.minor). -/
def vminor (r : List Nat) : Nat := r.getD 1 0

/-- release[2], defaulting to 0 (packaging Version.micro). -/
def vmicro (r : List Nat) : Nat := r.getD 2 0

/-- Strip trailing zero components, the PEP 440 release comparison key. -/
def releaseKey (r : List Nat) : List Nat :=
  (r.reverse.dropWhile (fun n => n = 0)).reverse

/-- Lexicographic comparison of Nat lists (Python tuple comparison). -/
def lexLeNat : List Nat → List Nat → Bool
  | [], _ => true
  | _ :: _, [] => false
  | a :: as, b :: bs =>
    if a < b then true
    else if b < a then false
    else lexLeNat as bs

/-- packaging Version order on plain numeric releases: compare the
trailing-zero-stripped release tuples lexicographically. -/
def versionLe (a b : List Nat) : Bool := lexLeNat (releaseKey a) (releaseKey b)

theorem lexLeNat_total (a b : List Nat) :
    lexLeNat a b = true ∨ lexLeNat b a = true := by
  induction a generalizing b with
  | nil => left; rfl
  | cons x xs ih =>
    cases b with
    | nil => right; rfl
    | cons y ys =>
      rcases Nat.lt_trichotomy x y with h | h | h
      · left; simp [lexLeNat, h]
      · have hxy : ¬ x < y := by omega
        have hyx : ¬ y < x := by omega
        rcases ih ys with h2 | h2
        · left; simp [lexLeNat, hxy, hyx, h2]
        · right; simp [lexLeNat, hxy, hyx, h2]
      · right; simp [lexLeNat, h]

theorem lexLeNat_trans {a b c : List Nat} (hab : lexLeNat a b = true)
    (hbc : lexLeNat b c = true) : lexLeNat a c = true := by
  induction a generalizing b c with
  | nil => rfl
  | cons x xs ih =>
    cases b with
    | nil => simp [lexLeNat] at hab
    | cons y ys =>
      cases c with
      | nil => simp [lexLeNat] at hbc
      | cons z zs =>
        simp only [lexLeNat] at hab hbc ⊢
        rcases Nat.lt_trichotomy x y with h1 | h1 | h1
        · rcases Nat.lt_trichotomy y z with h2 | h2 | h2
          · simp [show x < z by omega]
          · simp [show x < z by omega]
          · simp [show ¬ y < z by omega, h2] at hbc
        · rcases Nat.lt_trichotomy y z with h2 | h2 | h2
          · simp [show x < z by omega]
          · simp only [show ¬ x < y by omega, if_false,
              show ¬ y < x by omega,
              show ¬ y < z by omega,
              show ¬ z < y by omega] at hab hbc
            simp only [show ¬ x < z by omega, if_false,
              show ¬ z < x by omega]
            exact ih hab hbc
          · simp [show ¬ y < z by omega, h2] at hbc
        · simp [show ¬ x < y by omega, h1] at hab

theorem lexLeNat_refl (a : List Nat) : lexLeNat a a = true := by
  induction a with
  | nil => rfl
  | cons x xs ih => simp [lexLeNat, ih]

theorem versionLe_refl (a : List Nat) : versionLe a a = true :=
  lexLeNat_refl _

theorem versionLe_total (a b : List Nat) :
    versionLe a b = true ∨ versionLe b a = true :=
  lexLeNat_total _ _

theorem versionLe_trans {a b c : List Nat} (hab : versionLe a b = true)
    (hbc : versionLe b c = true) : versionLe a c = true :=
  lexLeNat_trans hab hbc

/-- versionLe as a Prop, the relation sorted is run with in main. -/
def versionLeP : List Nat → List Nat → Prop := fun a b => versionLe a b = true

instance : DecidableRel versionLeP := fun a b => by unfold versionLeP; infer_instance

instance : IsTotal (List Nat) versionLeP := ⟨versionLe_total⟩

instance : IsTrans (List Nat) versionLeP :=
  ⟨fun _ _ _ hab hbc => versionLe_trans hab hbc⟩

/-! ## autoincrement_version (create_tag.py lines 58 to 85) -/

/-- Shallow embedding of autoincrement_version.  The latest version is an
optional string; parsing it can fail (Version raises), hence the Option
result.  The Python function falls through to return "1" when
latest_version is None and the semver bump type is not one of the three
known kinds, exactly as the source does. -/
def autoincrement_version (latest_version : Option String)
    (semver : Bool) (semver_bump_type : String) : Option String :=
  match latest_version with
  | none =>
    if semver then
      if semver_bump_type = "major" then some "1.0.0"
      else if semver_bump_type = "minor" then some "0.1.0"
      else if semver_bump_type = "patch" then some "0.0.1"
      else some "1"
    else some "1"
  | some lv =>
    match parseVersion lv with
    | none => none
    | some r =>
      if semver then
        if semver_bump_type = "minor" then
          some (Nat.repr (vmajor r) ++ "." ++ Nat.repr (vminor r + 1) ++ ".0")
        else if semver_bump_type = "patch" then
          some (Nat.repr (vmajor r) ++ "." ++ Nat.repr (vminor r) ++ "." ++
                Nat.repr (vmicro r + 1))
        else
          some (Nat.repr (vmajor r + 1) ++ ".0.0")
      else if r.length > 1 then
        some (String.intercalate "."
          ((r.dropLast.map Nat.repr) ++ [Nat.repr (r.getLastD 0 + 1)]))
      else
        some (Nat.repr (vmajor r + 1))

/-- C1: semantic bumps on a parseable major.minor.patch prior version. -/
theorem claim_C1_semantic_bump (s : String) (a b c : Nat)
    (h : parseVersion s = some [a, b, c]) :
    autoincrement_version (some s) true "major" =
      some (Nat.repr (a + 1) ++ ".0.0") ∧
    autoincrement_version (some s) true "minor" =
      some (Nat.repr a ++ "." ++ Nat.repr (b + 1) ++ ".0") ∧
    autoincrement_version (some s) true "patch" =
      some (Nat.repr a ++ "." ++ Nat.repr b ++ "." ++ Nat.repr (c + 1)) := by
  refine ⟨?_, ?_, ?_⟩ <;>
    simp [autoincrement_version, h, vmajor, vminor, vmicro]

/-- Witness for C1 at the prior version 1.2.3. -/
theorem claim_C1_semantic_bump_witness :
    autoincrement_version (some "1.2.3") true "major" = some "2.0.0" ∧
    autoincrement_version (some "1.2.3") true "minor" = some "1.3.0" ∧
    autoincrement_version (some "1.2.3") true "patch" = some "1.2.4" := by
  obtain ⟨h1, h2, h3⟩ := claim_C1_semantic_bump "1.2.3" 1 2 3 (by decide)
  refine ⟨?_, ?_, ?_⟩
  · rw [h1]; decide
  · rw [h2]; decide
  · rw [h3]; decide

/-- C2: plain autoincrement bumps only the final component of a dotted
version, bumps a bare integer directly, and yields 1 with no prior
version. -/
theorem claim_C2_plain_bump :
    (∀ (s : String) (init : List Nat) (last : Nat) (bt : String),
      parseVersion s = some (init ++ [last]) → init ≠ [] →
      autoincrement_version (some s) false bt =
        some (String.intercalate "."
          ((init.map Nat.repr) ++ [Nat.repr (last + 1)]))) ∧
    (∀ (s : String) (n : Nat) (bt : String), parseVersion s = some [n] →
      autoincrement_version (some s) false bt = some (Nat.repr (n + 1))) ∧
    (∀ bt : String, autoincrement_version none false bt = some "1") := by
  refine ⟨?_, ?_, ?_⟩
  · intro s init last bt h hne
    have hlen : 1 < (init ++ [last]).length := by
      cases init with
      | nil => exact absurd rfl hne
      | cons x xs => simp
    simp only [autoincrement_version, h, Bool.false_eq_true, if_false,
      gt_iff_lt, hlen, if_true, List.dropLast_concat, List.getLastD_concat]
  · intro s n bt h
    simp [autoincrement_version, h, vmajor]
  · intro bt
    rfl

/-- Witness for C2 at the prior versions 1.2 and 5, and no prior version. -/
theorem claim_C2_plain_bump_witness :
    autoincrement_version (some "1.2") false "major" = some "1.3" ∧
    autoincrement_version (some "5") false "major" = some "6" ∧
    autoincrement_version none false "major" = some "1" := by
  obtain ⟨h1, h2, h3⟩ := claim_C2_plain_bump
  refine ⟨?_, ?_, h3 "major"⟩
  · rw [h1 "1.2" [1] 2 "major" (by decide) (by decide)]; decide
  · rw [h2 "5" 5 "major" (by decide)]; decide

/-! ## Latest-tag selection (create_tag.py main, lines 255 to 267)

main parses every reachable tag with Version, sorts the resulting list
with list.sort (which uses the Version order, i.e. structured comparison
of release tuples) and takes the last element.  list.sort is a stable
ascending sort; on a decidable total preorder insertion sort is exactly
that, so insertionSort models it. -/

/-- The list comprehension building Version objects for every tag; a
parse failure raises out of main, modelled as none. -/
def parseAllVersions : List String → Option (List (List Nat))
  | [] => some []
  | t :: rest =>
    match parseVersion t, parseAllVersions rest with
    | some v, some vs => some (v :: vs)
    | _, _ => none

theorem parseAllVersions_length :
    ∀ {ts : List String} {vs : List (List Nat)},
      parseAllVersions ts = some vs → vs.length = ts.length := by
  intro ts
  induction ts with
  | nil => intro vs h; cases h; rfl
  | cons t rest ih =>
    intro vs h
    unfold parseAllVersions at h
    cases hp : parseVersion t with
    | none => rw [hp] at h; cases h
    | some v =>
      rw [hp] at h
      cases hr : parseAllVersions rest with
      | none => rw [hr] at h; cases h
      | some vs2 =>
        rw [hr] at h
        cases h
        simp [ih hr]

/-- Shallow embedding of the latest-version computation in main: if the
tag list is empty the latest version stays None; otherwise every tag is
parsed (a parse failure raises, modelled as none) and the maximum under
the Version order is selected by sorting and taking the last element. -/
def latest_version_from_tags (tags : List String) : Option (List Nat) :=
  if tags.isEmpty then none
  else
    match parseAllVersions tags with
    | none => none
    | some vs => (vs.insertionSort versionLeP).getLast?

theorem getLast?_mem_of_eq_some {α : Type} :
    ∀ (l : List α) (m : α), l.getLast? = some m → m ∈ l := by
  intro l
  induction l with
  | nil => intro m h; cases h
  | cons a t ih =>
    intro m h
    cases t with
    | nil =>
      simp [List.getLast?] at h
      simp [h]
    | cons b t2 =>
      rw [List.getLast?_cons_cons] at h
      exact List.mem_cons_of_mem a (ih m h)

theorem sorted_mem_rel_getLast {α : Type} {r : α → α → Prop}
    (hrefl : ∀ a, r a a) :
    ∀ (l : List α), l.Sorted r → ∀ x ∈ l, ∀ m, l.getLast? = some m → r x m := by
  intro l
  induction l with
  | nil => intro _ x hx; cases hx
  | cons a t ih =>
    intro hs x hx m hm
    cases t with
    | nil =>
      simp [List.getLast?] at hm
      simp at hx
      rw [hx, ← hm]
      exact hrefl a
    | cons b t2 =>
      rw [List.getLast?_cons_cons] at hm
      rcases List.mem_cons.mp hx with rfl | hx2
      · exact (List.sorted_cons.mp hs).1 m
          (getLast?_mem_of_eq_some _ m hm)
      · exact ih (List.sorted_cons.mp hs).2 x hx2 m hm

/-- C3: the version picked as latest is a maximum under the structured
Version order; in particular among the tags 9 and 10 the code selects 10
even though plain string comparison orders the string 10 before the
string 9. -/
theorem claim_C3_structured_max :
    (∀ (tags : List String) (vs : List (List Nat)),
      parseAllVersions tags = some vs → tags ≠ [] →
      ∃ m, latest_version_from_tags tags = some m ∧
        ∀ v ∈ vs, versionLe v m = true) ∧
    (latest_version_from_tags ["9", "10"] = some [10] ∧
      pyStrLe "10" "9" = true ∧ pyStrLe "9" "10" = false) := by
  constructor
  · intro tags vs hparse hne
    have hemp : tags.isEmpty = false := by
      cases tags with
      | nil => exact absurd rfl hne
      | cons a t => rfl
    have hvs : vs ≠ [] := by
      intro hnil
      have hlen := parseAllVersions_length hparse
      rw [hnil] at hlen
      cases tags with
      | nil => exact hne rfl
      | cons a t => simp at hlen
    have hsortne : vs.insertionSort versionLeP ≠ [] := by
      intro hnil
      have hperm := List.perm_insertionSort versionLeP vs
      rw [hnil] at hperm
      exact hvs hperm.symm.eq_nil
    obtain ⟨m, hm⟩ := Option.isSome_iff_exists.mp
      (List.getLast?_isSome.mpr hsortne)
    refine ⟨m, ?_, ?_⟩
    · simp only [latest_version_from_tags, hemp, Bool.false_eq_true,
        if_false, hparse]
      exact hm
    · intro v hv
      have hvmem : v ∈ vs.insertionSort versionLeP :=
        ((List.perm_insertionSort versionLeP vs).mem_iff).mpr hv
      exact sorted_mem_rel_getLast versionLe_refl _
        (List.sorted_insertionSort versionLeP vs) v hvmem m hm
  · refine ⟨?_, by decide, by decide⟩
    decide

/-- Witness for C3 on the concrete tag list [2.1, 10, 9]. -/
theorem claim_C3_structured_max_witness :
    ∃ m, latest_version_from_tags ["2.1", "10", "9"] = some m ∧
      ∀ v ∈ [[2, 1], [10], [9]], versionLe v m = true := by
  exact claim_C3_structured_max.1 ["2.1", "10", "9"] [[2, 1], [10], [9]]
    (by decide) (by decide)

/-! ## Release gating (create_tag.py create_release_tag, lines 172 to 202) -/

/-- Observable actions of create_release_tag, in order. -/
inductive ReleaseAction where
  | queryPullRequest (commit_hash : String)
  | createTag (tag : String)
  | exitCode (code : Nat)
  deriving DecidableEq

/-- The no-release gate of create_release_tag: skip when there are no
commits, or when the only enumerated subject is the automated
post-release bump marker. -/
def shouldSkipRelease (hashes subjects : List String) : Bool :=
  decide (hashes.length < 1) ||
    (match subjects with
     | [s] => decide (s = "Post release version bump")
     | _ => false)

/-- Shallow embedding of the action sequence of create_release_tag: when
the gate fires, the function prints an info message and exits 0 before
querying any pull request or creating any tag; otherwise it queries the
pull request of every commit hash (via get_pullrequest_infos) and then
creates the tag, the latter suppressed on a dry run. -/
def create_release_tag_actions (hashes subjects : List String)
    (version : String) (dry_run : Bool) : List ReleaseAction :=
  if shouldSkipRelease hashes subjects then [ReleaseAction.exitCode 0]
  else
    (hashes.map ReleaseAction.queryPullRequest) ++
      (if dry_run then [] else [ReleaseAction.createTag ("v" ++ version)])

/-- C4: with no commits, or with exactly one commit carrying the literal
post-release-bump subject, create_release_tag exits 0 without querying a
pull request or creating a tag. -/
theorem claim_C4_noop_gate (hashes subjects : List String)
    (version : String) (dry_run : Bool)
    (h : hashes = [] ∨ subjects = ["Post release version bump"]) :
    create_release_tag_actions hashes subjects version dry_run =
      [ReleaseAction.exitCode 0] := by
  have hskip : shouldSkipRelease hashes subjects = true := by
    rcases h with h | h
    · subst h
      rfl
    · subst h
      simp [shouldSkipRelease]
  simp [create_release_tag_actions, hskip]

/-- Witness for C4 at a single post-release-bump commit. -/
theorem claim_C4_noop_gate_witness :
    create_release_tag_actions ["abc123"] ["Post release version bump"]
      "2.0" false = [ReleaseAction.exitCode 0] :=
  claim_C4_noop_gate ["abc123"] ["Post release version bump"] "2.0" false
    (Or.inr rfl)

/-! ## Changelog assembly (get_pullrequest_infos, lines 147 to 169) -/

/-- Python dict.fromkeys dedup: keep the first occurrence of each
string, in input order. -/
def pyDedup (l : List String) : List String :=
  l.foldl (fun acc s => if s ∈ acc then acc else acc ++ [s]) []

/-- sorted(list(dict.fromkeys(summaries))): order-preserving dedup, then
ascending sort in the Python string order. -/
def sortedUniqueSummaries (l : List String) : List String :=
  (pyDedup l).insertionSort pyLe

/-- The changelog body assembled by get_pullrequest_infos: the newline
join of the deduplicated, sorted pull-request summaries. -/
def assembled_changelog (summaries : List String) : String :=
  String.intercalate "\n" (sortedUniqueSummaries summaries)

theorem pyDedup_go_mem (l : List String) :
    ∀ (acc : List String) (x : String),
      x ∈ l.foldl (fun acc s => if s ∈ acc then acc else acc ++ [s]) acc ↔
        x ∈ acc ∨ x ∈ l := by
  induction l with
  | nil => intro acc x; simp
  | cons s rest ih =>
    intro acc x
    simp only [List.foldl_cons]
    by_cases hs : s ∈ acc
    · rw [if_pos hs, ih]
      constructor
      · rintro (hx | hx)
        · exact Or.inl hx
        · exact Or.inr (List.mem_cons_of_mem s hx)
      · rintro (hx | hx)
        · exact Or.inl hx
        · rcases List.mem_cons.mp hx with rfl | hx2
          · exact Or.inl hs
          · exact Or.inr hx2
    · rw [if_neg hs, ih]
      constructor
      · rintro (hx | hx)
        · rcases List.mem_append.mp hx with hx1 | hx1
          · exact Or.inl hx1
          · simp at hx1
            exact Or.inr (hx1 ▸ List.mem_cons_self s rest)
        · exact Or.inr (List.mem_cons_of_mem s hx)
      · rintro (hx | hx)
        · exact Or.inl (List.mem_append.mpr (Or.inl hx))
        · rcases List.mem_cons.mp hx with rfl | hx2
          · exact Or.inl (List.mem_append.mpr (Or.inr (by simp)))
          · exact Or.inr hx2

theorem pyDedup_go_nodup (l : List String) :
    ∀ acc : List String, acc.Nodup →
      (l.foldl (fun acc s => if s ∈ acc then acc else acc ++ [s]) acc).Nodup := by
  induction l with
  | nil => intro acc h; simpa using h
  | cons s rest ih =>
    intro acc h
    simp only [List.foldl_cons]
    by_cases hs : s ∈ acc
    · rw [if_pos hs]; exact ih acc h
    · rw [if_neg hs]
      apply ih
      refine List.Nodup.append h (List.nodup_singleton s) ?_
      intro a ha ha2
      rw [List.mem_singleton] at ha2
      subst ha2
      exact hs ha

theorem pyDedup_mem (l : List String) (x : String) :
    x ∈ pyDedup l ↔ x ∈ l := by
  unfold pyDedup
  rw [pyDedup_go_mem]
  simp

theorem pyDedup_nodup (l : List String) : (pyDedup l).Nodup :=
  pyDedup_go_nodup l [] List.nodup_nil

theorem sortedUniqueSummaries_nodup (l : List String) :
    (sortedUniqueSummaries l).Nodup :=
  ((List.perm_insertionSort pyLe (pyDedup l)).nodup_iff).mpr (pyDedup_nodup l)

theorem sortedUniqueSummaries_mem (l : List String) (x : String) :
    x ∈ sortedUniqueSummaries l ↔ x ∈ l := by
  unfold sortedUniqueSummaries
  rw [(List.perm_insertionSort pyLe (pyDedup l)).mem_iff]
  exact pyDedup_mem l x

/-- C5: the assembled changelog is the newline join of the summary
strings after exact-duplicate removal and ascending lexicographic sort;
each distinct summary appears exactly once, and any permutation of the
input yields the same changelog. -/
theorem claim_C5_changelog_assembly :
    (∀ (summaries : List String) (s : String), s ∈ summaries →
      (sortedUniqueSummaries summaries).count s = 1) ∧
    (∀ summaries1 summaries2 : List String, summaries1.Perm summaries2 →
      assembled_changelog summaries1 = assembled_changelog summaries2) ∧
    (∀ summaries : List String,
      assembled_changelog summaries =
        String.intercalate "\n" (sortedUniqueSummaries summaries)) := by
  refine ⟨?_, ?_, fun _ => rfl⟩
  · intro summaries s hs
    exact List.count_eq_one_of_mem (sortedUniqueSummaries_nodup summaries)
      ((sortedUniqueSummaries_mem summaries s).mpr hs)
  · intro l1 l2 hperm
    have hd : (pyDedup l1).Perm (pyDedup l2) := by
      rw [List.perm_ext_iff_of_nodup (pyDedup_nodup l1) (pyDedup_nodup l2)]
      intro a
      rw [pyDedup_mem, pyDedup_mem]
      exact hperm.mem_iff
    have hsortperm : (sortedUniqueSummaries l1).Perm (sortedUniqueSummaries l2) :=
      ((List.perm_insertionSort pyLe (pyDedup l1)).trans hd).trans
        (List.perm_insertionSort pyLe (pyDedup l2)).symm
    have heq : sortedUniqueSummaries l1 = sortedUniqueSummaries l2 :=
      List.eq_of_perm_of_sorted hsortperm
        (List.sorted_insertionSort pyLe (pyDedup l1))
        (List.sorted_insertionSort pyLe (pyDedup l2))
    unfold assembled_changelog
    rw [heq]

/-- Witness for C5: a duplicated summary appears once, and swapping the
input order leaves the assembled changelog unchanged. -/
theorem claim_C5_changelog_assembly_witness :
    (sortedUniqueSummaries ["b", "a", "b"]).count "b" = 1 ∧
    assembled_changelog ["b", "a"] = assembled_changelog ["a", "b"] := by
  constructor
  · exact claim_C5_changelog_assembly.1 ["b", "a", "b"] "b" (by decide)
  · exact claim_C5_changelog_assembly.2.1 ["b", "a"] ["a", "b"]
      (List.Perm.swap "a" "b" [])

/-! ## Pull-request summary formatting (get_pullrequest_infos, 157-164) -/

/-- The two-branch summary formatting in get_pullrequest_infos: a bullet
line with the pull-request title and number, then an attribution line.
Translated verbatim from the two f-strings; note that in the source the
cockpit-composer attribution line ends with a stray closing parenthesis
and uses a dash sub-bullet, while every other component uses star
bullets with deeper indentation. -/
def format_pr_summary (repo title : String) (number : Nat)
    (author : String) (reviewers : List String) : String :=
  if repo = "cockpit-composer" then
    "- " ++ title ++ " (#" ++ Nat.repr number ++ ")\n" ++
      "  - Author: " ++ author ++ ", Reviewers: " ++
      String.intercalate ", " reviewers ++ ")"
  else
    "  * " ++ title ++ " (#" ++ Nat.repr number ++ ")\n" ++
      "    * Author: " ++ author ++ ", Reviewers: " ++
      String.intercalate ", " reviewers

/-- Split a character list into its newline-separated lines. -/
def splitLines (l : List Char) : List (List Char) := splitOnChar '\n' l

theorem splitOnChar_no_sep (sep : Char) :
    ∀ l : List Char, sep ∉ l → splitOnChar sep l = [l] := by
  intro l
  induction l with
  | nil => intro _; rfl
  | cons c rest ih =>
    intro h
    have hc : ¬ c = sep := fun hcs => h (hcs ▸ List.mem_cons_self c rest)
    have hrest : sep ∉ rest := fun hr => h (List.mem_cons_of_mem c hr)
    simp only [splitOnChar, if_neg hc, ih hrest]

theorem splitOnChar_append_sep (sep : Char) :
    ∀ (a b : List Char), sep ∉ a →
      splitOnChar sep (a ++ sep :: b) = a :: splitOnChar sep b := by
  intro a
  induction a with
  | nil =>
    intro b _
    simp [splitOnChar]
  | cons c rest ih =>
    intro b h
    have hc : ¬ c = sep := fun hcs => h (hcs ▸ List.mem_cons_self c rest)
    have hrest : sep ∉ rest := fun hr => h (List.mem_cons_of_mem c hr)
    simp only [List.cons_append, splitOnChar, if_neg hc, List.append_eq]
    rw [ih b hrest]

/-- C7 counterexample: dropping the claimed bullet prefixes (2 chars for
cockpit-composer, 4 chars otherwise) does not leave the same remainder,
so the two formats differ beyond the bullet prefix. -/
theorem claim_C7_counterexample :
    ¬ ((format_pr_summary "cockpit-composer" "T" 1 "A" ["R"]).data.drop 2 =
       (format_pr_summary "osbuild" "T" 1 "A" ["R"]).data.drop 4) := by
  decide

/-- C7 amended: every resolved pull request formats as exactly two
lines.  For cockpit-composer the bullet line has prefix dash-space, the
attribution line has prefix two-spaces-dash-space and ends with a stray
closing parenthesis; for every other component the bullet line has
prefix two-spaces-star-space and the attribution line has prefix
four-spaces-star-space with no trailing parenthesis. -/
theorem claim_C7_two_line_formats (repo title author : String)
    (number : Nat) (reviewers : List String)
    (hrepo : repo ≠ "cockpit-composer")
    (ht : '\n' ∉ title.data) (ha : '\n' ∉ author.data)
    (hn : '\n' ∉ (Nat.repr number).data)
    (hr : '\n' ∉ (String.intercalate ", " reviewers).data) :
    splitLines (format_pr_summary "cockpit-composer" title number author
        reviewers).data =
      [("- " ++ title ++ " (#" ++ Nat.repr number ++ ")").data,
       ("  - Author: " ++ author ++ ", Reviewers: " ++
         String.intercalate ", " reviewers ++ ")").data] ∧
    splitLines (format_pr_summary repo title number author reviewers).data =
      [("  * " ++ title ++ " (#" ++ Nat.repr number ++ ")").data,
       ("    * Author: " ++ author ++ ", Reviewers: " ++
         String.intercalate ", " reviewers).data] := by
  have hl1 : '\n' ∉ ("- " ++ title ++ " (#" ++ Nat.repr number ++ ")").data := by
    simp only [String.data_append, List.mem_append]
    rintro ((((h | h) | h) | h) | h) <;>
      first
        | exact ht h
        | exact hn h
        | revert h; decide
  have hl2 : '\n' ∉ ("  * " ++ title ++ " (#" ++ Nat.repr number ++ ")").data := by
    simp only [String.data_append, List.mem_append]
    rintro ((((h | h) | h) | h) | h) <;>
      first
        | exact ht h
        | exact hn h
        | revert h; decide
  constructor
  · have hshape :
        (format_pr_summary "cockpit-composer" title number author
            reviewers).data =
          ("- " ++ title ++ " (#" ++ Nat.repr number ++ ")").data ++ '\n' ::
            ("  - Author: " ++ author ++ ", Reviewers: " ++
              String.intercalate ", " reviewers ++ ")").data := by
      simp [format_pr_summary, String.data_append]
    rw [splitLines, hshape, splitOnChar_append_sep '\n' _ _ hl1,
      splitOnChar_no_sep '\n']
    simp only [String.data_append, List.mem_append]
    rintro ((((h | h) | h) | h) | h) <;>
      first
        | exact ha h
        | exact hr h
        | revert h; decide
  · have hshape :
        (format_pr_summary repo title number author reviewers).data =
          ("  * " ++ title ++ " (#" ++ Nat.repr number ++ ")").data ++ '\n' ::
            ("    * Author: " ++ author ++ ", Reviewers: " ++
              String.intercalate ", " reviewers).data := by
      simp [format_pr_summary, if_neg hrepo, String.data_append]
    rw [splitLines, hshape, splitOnChar_append_sep '\n' _ _ hl2,
      splitOnChar_no_sep '\n']
    simp only [String.data_append, List.mem_append]
    rintro (((h | h) | h) | h) <;>
      first
        | exact ha h
        | exact hr h
        | revert h; decide

/-- Witness for the amended C7 at a concrete pull request. -/
theorem claim_C7_two_line_formats_witness :
    splitLines (format_pr_summary "cockpit-composer" "T" 1 "A" ["R"]).data =
      ["- T (#1)".data, "  - Author: A, Reviewers: R)".data] ∧
    splitLines (format_pr_summary "osbuild" "T" 1 "A" ["R"]).data =
      ["  * T (#1)".data, "    * Author: A, Reviewers: R".data] := by
  obtain ⟨h1, h2⟩ := claim_C7_two_line_formats "osbuild" "T" "A" 1 ["R"]
    (by decide) (by decide) (by decide) (by decide) (by decide)
  constructor
  · rw [h1]; decide
  · rw [h2]; decide

/-! ## Commit-count reporting (get_pullrequest_infos, lines 153 to 168) -/

/-- The commit count interpolated into the closing status message of
get_pullrequest_infos.  The source prints the loop variable i after the
enumerate loop finishes, so for a non-empty hash list the printed number
is len(hashes) - 1; for an empty list the name i was never bound and the
f-string raises NameError (modelled as none). -/
def reported_commit_count (hashes : List String) : Option Nat :=
  match hashes with
  | [] => none
  | _ => some (hashes.length - 1)

/-- The closing status message of get_pullrequest_infos, given the
number of deduplicated summaries and the processed hash list. -/
def collected_message (uniqueCount : Nat) (hashes : List String) :
    Option String :=
  (reported_commit_count hashes).map (fun i =>
    "Collected summaries from " ++ Nat.repr uniqueCount ++
      " pull requests (" ++ Nat.repr i ++ " commits).")

/-- C8 is a code bug: for the single-commit input the message reports 0
commits although 1 commit was processed; in general the report says
len(hashes) - 1, not len(hashes). -/
theorem claim_C8_commit_count_bug :
    reported_commit_count ["abc123"] = some 0 ∧
    (["abc123"] : List String).length = 1 ∧
    collected_message 1 ["abc123"] =
      some "Collected summaries from 1 pull requests (0 commits)." := by
  refine ⟨rfl, rfl, ?_⟩
  decide

/-! ## Slack notification control flow (slack_notify_release.py) -/

/-- Shallow embedding of slack_notify_with_thread.  The Slack client is
an oracle: postMain is the outcome of posting the main message, and
postThread the outcome of posting the threaded reply; SlackApiError is
Except.error.  The Python failure signal (None, None) is modelled as
none; a successful post returns the channel id and message timestamp.
The dry-run branch returns its sentinels before the token and channel
checks, exactly as in the source; the thread is only posted when the
thread message is present and non-empty (Python truthiness). -/
def slack_notify_with_thread (slack_bot_token slack_channel_id : String)
    (thread_message : Option String) (dry_run : Bool)
    (postMain : Except Unit (String × String))
    (postThread : Except Unit String) : Option (String × String) :=
  if dry_run then some ("dry-run-channel", "dry-run-ts")
  else if slack_bot_token = "" then none
  else if slack_channel_id = "" then none
  else
    match postMain with
    | Except.error _ => none
    | Except.ok (channel_id, message_ts) =>
      match thread_message with
      | none => some (channel_id, message_ts)
      | some t =>
        if t = "" then some (channel_id, message_ts)
        else
          match postThread with
          | Except.error _ => none
          | Except.ok _ => some (channel_id, message_ts)

/-- Exit status of main in slack_notify_release.py given the notify
result: 0 when both returned identifiers are truthy, 1 otherwise. -/
def slack_main_exit_code (result : Option (String × String)) : Nat :=
  match result with
  | some (c, t) => if c ≠ "" ∧ t ≠ "" then 0 else 1
  | none => 1

/-- C10: in dry-run mode the notifier returns the sentinel identifiers
and main exits 0, for every token and channel including empty ones,
because the dry-run branch returns before the credential checks; the
(None, None) failure signal only arises in live mode. -/
theorem claim_C10_dry_run_sentinels :
    (∀ (token channel : String) (tm : Option String)
        (pm : Except Unit (String × String)) (pt : Except Unit String),
      slack_notify_with_thread token channel tm true pm pt =
        some ("dry-run-channel", "dry-run-ts") ∧
      slack_main_exit_code
        (slack_notify_with_thread token channel tm true pm pt) = 0) ∧
    (∀ (token channel : String) (tm : Option String) (d : Bool)
        (pm : Except Unit (String × String)) (pt : Except Unit String),
      slack_notify_with_thread token channel tm d pm pt = none →
        d = false) := by
  constructor
  · intro token channel tm pm pt
    refine ⟨rfl, ?_⟩
    show slack_main_exit_code (some ("dry-run-channel", "dry-run-ts")) = 0
    decide
  · intro token channel tm d pm pt h
    cases d with
    | false => rfl
    | true => simp [slack_notify_with_thread] at h

/-- Witness for C10 with empty credentials in dry-run mode, and a live
run that produced the failure signal. -/
theorem claim_C10_dry_run_sentinels_witness :
    (slack_notify_with_thread "" "" (some "notes") true
        (Except.error ()) (Except.error ()) =
      some ("dry-run-channel", "dry-run-ts") ∧
      slack_main_exit_code (slack_notify_with_thread "" "" (some "notes") true
        (Except.error ()) (Except.error ())) = 0) ∧
    (false : Bool) = false := by
  refine ⟨claim_C10_dry_run_sentinels.1 "" "" (some "notes")
    (Except.error ()) (Except.error ()), ?_⟩
  exact claim_C10_dry_run_sentinels.2 "" "chan" none false
    (Except.ok ("c", "1")) (Except.ok "1") (by decide)

/-! ## Commit-to-PR correlation (create_tag.py lines 88 to 169)

get_full_username, list_reviewers_for_pr and list_prs_for_hash call the
GitHub client, modelled as an oracle record.  The source wraps the
search call and the list_reviews call in try blocks, but neither
display-name resolution (the author in list_prs_for_hash, the reviewers
inside the loop of list_reviewers_for_pr) is protected, so a client
exception there propagates out of the correlation loop. -/

/-- The pull-request fields the correlation phase reads. -/
structure PullRequest where
  login : String
  number : Nat
  title : String
  html_url : String
  deriving DecidableEq

/-- One review entry: its state and the reviewer login. -/
structure Review where
  state : String
  login : String
  deriving DecidableEq

/-- Oracle for the GitHub API calls of the correlation phase; ok is a
normal response, error a raised client exception. -/
structure GhApi where
  search_issues_and_pull_requests : String → Except Unit (List PullRequest)
  users_get_by_username : String → Except Unit String
  pulls_list_reviews : Nat → Except Unit (List Review)

/-- get_full_username: resolve a login to a display name.  No try block
in the source, so a client exception propagates to the caller. -/
def get_full_username (api : GhApi) (username : String) :
    Except Unit String :=
  api.users_get_by_username username

/-- The loop of list_reviewers_for_pr over the review entries: collect
the display name of every reviewer whose state is APPROVED; the
display-name call can raise and then propagates. -/
def collectApprovedReviewers (api : GhApi) :
    List Review → Except Unit (List String)
  | [] => Except.ok []
  | r :: rest =>
    if r.state = "APPROVED" then
      match get_full_username api r.login with
      | Except.error e => Except.error e
      | Except.ok name =>
        match collectApprovedReviewers api rest with
        | Except.error e => Except.error e
        | Except.ok names => Except.ok (name :: names)
    else collectApprovedReviewers api rest

/-- list_reviewers_for_pr: the list_reviews call sits in a try block (a
failure logs and yields no reviewers), the name resolutions inside the
loop do not.  Returns sorted(set(reviewers)). -/
def list_reviewers_for_pr (api : GhApi) (pr_number : Nat) :
    Except Unit (List String) :=
  match api.pulls_list_reviews pr_number with
  | Except.error _ => Except.ok []
  | Except.ok items =>
    match collectApprovedReviewers api items with
    | Except.error e => Except.error e
    | Except.ok reviewers =>
      Except.ok ((pyDedup reviewers).insertionSort pyLe)

/-- One correlation outcome: the optional uniquely matched pull request,
the author display name, the reviewer display names, and the diagnostic
messages printed while handling this commit. -/
structure PrLookup where
  pull_request : Option PullRequest
  author : String
  reviewers : List String
  logs : List String
  deriving DecidableEq

/-- list_prs_for_hash: the search call sits in a try block (failure logs
a diagnostic and acts like no result); exactly one hit resolves the pull
request, its author name and the approving reviewers (both resolutions
can raise and then propagate); zero or several hits log a diagnostic
listing the candidates and leave the commit unassociated with the
default Nobody attribution. -/
def list_prs_for_hash (api : GhApi) (commit_hash : String) :
    Except Unit PrLookup :=
  match api.search_issues_and_pull_requests commit_hash with
  | Except.error _ =>
    Except.ok ⟨none, "Nobody", ["Nobody"],
      ["Couldn't get PR infos for " ++ commit_hash ++ "."]⟩
  | Except.ok items =>
    match items with
    | [pr] =>
      match get_full_username api pr.login with
      | Except.error e => Except.error e
      | Except.ok author =>
        match list_reviewers_for_pr api pr.number with
        | Except.error e => Except.error e
        | Except.ok reviewers =>
          Except.ok ⟨some pr, author, reviewers, []⟩
    | _ =>
      Except.ok ⟨none, "Nobody", ["Nobody"],
        ("There are " ++ Nat.repr items.length ++
          " pull requests associated with " ++ commit_hash ++
          " - skipping...") :: items.map (fun pr => pr.html_url)⟩

/-- The correlation loop of get_pullrequest_infos over the enumerated
commit hashes, in order; the loop body has no try block, so an exception
raised by any lookup aborts the whole run. -/
def correlate_commits (api : GhApi) :
    List String → Except Unit (List PrLookup)
  | [] => Except.ok []
  | h :: rest =>
    match list_prs_for_hash api h with
    | Except.error e => Except.error e
    | Except.ok info =>
      match correlate_commits api rest with
      | Except.error e => Except.error e
      | Except.ok infos => Except.ok (info :: infos)

/-- C6 counterexample: with a uniquely matched pull request whose author
display-name resolution fails, the correlation run aborts (and the
second commit is never processed), refuting the never-aborts clause of
the claim for display-name failures. -/
theorem claim_C6_counterexample :
    correlate_commits
      { search_issues_and_pull_requests := fun _ =>
          Except.ok [⟨"alice", 1, "Title", "url"⟩],
        users_get_by_username := fun _ => Except.error (),
        pulls_list_reviews := fun _ => Except.ok [] }
      ["h1", "h2"] = Except.error () := rfl

theorem collectApprovedReviewers_ok (api : GhApi)
    (hu : ∀ u, ∃ name, api.users_get_by_username u = Except.ok name) :
    ∀ items, ∃ names, collectApprovedReviewers api items = Except.ok names := by
  intro items
  induction items with
  | nil => exact ⟨[], rfl⟩
  | cons r rest ih =>
    obtain ⟨names, hn⟩ := ih
    by_cases hs : r.state = "APPROVED"
    · obtain ⟨name, hname⟩ := hu r.login
      refine ⟨name :: names, ?_⟩
      simp [collectApprovedReviewers, hs, get_full_username, hname, hn]
    · refine ⟨names, ?_⟩
      simp [collectApprovedReviewers, hs, hn]

theorem list_reviewers_for_pr_ok (api : GhApi)
    (hu : ∀ u, ∃ name, api.users_get_by_username u = Except.ok name)
    (pr_number : Nat) :
    ∃ revs, list_reviewers_for_pr api pr_number = Except.ok revs := by
  unfold list_reviewers_for_pr
  cases hl : api.pulls_list_reviews pr_number with
  | error e => exact ⟨[], rfl⟩
  | ok items =>
    obtain ⟨names, hn⟩ := collectApprovedReviewers_ok api hu items
    refine ⟨(pyDedup names).insertionSort pyLe, ?_⟩
    simp [hn]

theorem list_prs_for_hash_ok (api : GhApi)
    (hu : ∀ u, ∃ name, api.users_get_by_username u = Except.ok name)
    (commit_hash : String) :
    ∃ info, list_prs_for_hash api commit_hash = Except.ok info := by
  unfold list_prs_for_hash
  cases hsearch : api.search_issues_and_pull_requests commit_hash with
  | error e => exact ⟨_, rfl⟩
  | ok items =>
    match items with
    | [] => exact ⟨_, rfl⟩
    | [pr] =>
      obtain ⟨name, hname⟩ := hu pr.login
      obtain ⟨revs, hrevs⟩ := list_reviewers_for_pr_ok api hu pr.number
      refine ⟨⟨some pr, name, revs, []⟩, ?_⟩
      simp [get_full_username, hname, hrevs]
    | p1 :: p2 :: rest => exact ⟨_, rfl⟩

/-- C6 amended: a search failure, a zero-hit search and a multi-hit
search each leave the commit unassociated (Nobody attribution), emit a
diagnostic and let the loop continue: whenever display-name resolution
succeeds, the correlation run never aborts and yields one outcome per
commit.  A display-name resolution failure, however, propagates and
aborts the run (claim_C6_counterexample). -/
theorem claim_C6_benign_failures_continue :
    (∀ (api : GhApi) (h : String),
      api.search_issues_and_pull_requests h = Except.error () →
      list_prs_for_hash api h = Except.ok ⟨none, "Nobody", ["Nobody"],
        ["Couldn't get PR infos for " ++ h ++ "."]⟩) ∧
    (∀ (api : GhApi) (h : String) (items : List PullRequest),
      api.search_issues_and_pull_requests h = Except.ok items →
      items.length ≠ 1 →
      list_prs_for_hash api h = Except.ok ⟨none, "Nobody", ["Nobody"],
        ("There are " ++ Nat.repr items.length ++
          " pull requests associated with " ++ h ++
          " - skipping...") :: items.map (fun pr => pr.html_url)⟩) ∧
    (∀ (api : GhApi) (hashes : List String),
      (∀ u, ∃ name, api.users_get_by_username u = Except.ok name) →
      ∃ infos, correlate_commits api hashes = Except.ok infos ∧
        infos.length = hashes.length) := by
  refine ⟨?_, ?_, ?_⟩
  · intro api h hsearch
    unfold list_prs_for_hash
    rw [hsearch]
  · intro api h items hsearch hlen
    unfold list_prs_for_hash
    rw [hsearch]
    match items, hlen with
    | [], _ => rfl
    | [pr], hlen => exact absurd rfl hlen
    | p1 :: p2 :: rest, _ => rfl
  · intro api hashes hu
    induction hashes with
    | nil => exact ⟨[], rfl, rfl⟩
    | cons h rest ih =>
      obtain ⟨infos, hinfos, hlen⟩ := ih
      obtain ⟨info, hinfo⟩ := list_prs_for_hash_ok api hu h
      refine ⟨info :: infos, ?_, ?_⟩
      · unfold correlate_commits
        rw [hinfo, hinfos]
      · simp [hlen]

/-- Witness for the amended C6: an API whose search always fails still
lets the loop cover both commits. -/
theorem claim_C6_benign_failures_continue_witness :
    ∃ infos,
      correlate_commits
        { search_issues_and_pull_requests := fun _ => Except.error (),
          users_get_by_username := fun _ => Except.ok "Ada",
          pulls_list_reviews := fun _ => Except.ok [] }
        ["h1", "h2"] = Except.ok infos ∧ infos.length = ["h1", "h2"].length :=
  claim_C6_benign_failures_continue.2.2
    { search_issues_and_pull_requests := fun _ => Except.error (),
      users_get_by_username := fun _ => Except.ok "Ada",
      pulls_list_reviews := fun _ => Except.ok [] }
    ["h1", "h2"] (fun _ => ⟨"Ada", rfl⟩)

/-! ## Markdown-to-Slack formatting (slack_notify_release.py, 16 to 36)

format_changelog_for_slack applies three re.sub passes in order: link
syntax, then MULTILINE headers, then MULTILINE list bullets.  Each pass
is modelled as a left-to-right scanner over the character list, exactly
the way re.sub scans: a pattern anchored at caret is only attempted at
line-start positions, a match is consumed and scanning resumes after it,
and a failed attempt emits one character.  The fuel argument bounds the
number of scan steps; every step consumes at least one input character,
so fuel equal to the input length always suffices and the top-level
wrapper passes exactly that.  The character class backslash-s is
modelled by the six ASCII whitespace characters Python matches (the
changelog bodies in scope contain no further Unicode whitespace). -/

/-- Python regex whitespace class on the ASCII range. -/
def isWS (c : Char) : Bool :=
  c == ' ' || c == '\t' || c == '\n' || c == '\r' || c == '\x0b' || c == '\x0c'

/-- Split at the first occurrence of the stop character: the content
before it (never containing it) and the remainder after it.  This is
the semantics of a greedy negated-class-plus followed by the literal
stop character. -/
def splitUntil (stop : Char) : List Char → Option (List Char × List Char)
  | [] => none
  | c :: rest =>
    if c = stop then some ([], rest)
    else
      match splitUntil stop rest with
      | some (pre, post) => some (c :: pre, post)
      | none => none

/-- Try to match the remainder of the link pattern after its opening
bracket: link text (one or more non-bracket characters), closing
bracket, opening parenthesis, url (one or more non-parenthesis
characters), closing parenthesis.  Returns text, url and the rest. -/
def tryLink (l : List Char) : Option (List Char × List Char × List Char) :=
  match splitUntil ']' l with
  | none => none
  | some (text, rest) =>
    if text.isEmpty then none
    else
      match rest with
      | '(' :: rest2 =>
        match splitUntil ')' rest2 with
        | none => none
        | some (url, rest3) =>
          if url.isEmpty then none else some (text, url, rest3)
      | _ => none

/-- First re.sub pass: rewrite every markdown link into the Slack
hyperlink form with url and text swapped around a pipe. -/
def linkSub : Nat → List Char → List Char
  | 0, l => l
  | _ + 1, [] => []
  | fuel + 1, c :: rest =>
    if c = '[' then
      match tryLink rest with
      | some (text, url, rest2) =>
        '<' :: url ++ '|' :: text ++ '>' :: linkSub fuel rest2
      | none => '[' :: linkSub fuel rest
    else c :: linkSub fuel rest

/-- Try to match the header pattern at a line start: one to six hash
marks (a longer run cannot match, since after at most six hashes the
pattern requires whitespace), mandatory greedy whitespace, then the
greedy dot-plus group running to the line end.  The whitespace run may
span newlines; when it reaches the end of the input the engine
backtracks and gives exactly one non-newline whitespace character back
to the group (the second branch).  Returns the captured group and the
remainder after the match. -/
def tryHeader (l : List Char) : Option (List Char × List Char) :=
  let hs := l.takeWhile (fun c => c == '#')
  if hs.length = 0 ∨ 6 < hs.length then none
  else
    let r1 := l.drop hs.length
    let w := r1.takeWhile isWS
    if w.isEmpty then none
    else
      match r1.dropWhile isWS with
      | d :: r2 =>
        some (d :: r2.takeWhile (fun c => c != '\n'),
          r2.dropWhile (fun c => c != '\n'))
      | [] =>
        let revW := w.reverse
        let nl := revW.takeWhile (fun c => c == '\n')
        match revW.drop nl.length with
        | [] => none
        | c :: ws2 =>
          if ws2.isEmpty then none else some ([c], nl.reverse)

/-- Second re.sub pass (MULTILINE): at every line-start position try the
header pattern; a match is emitted as the group wrapped in stars and
scanning resumes after the match, which is never again a line start
because the match ends before a newline or at the end of input. -/
def headerSub : Nat → Bool → List Char → List Char
  | 0, _, l => l
  | _ + 1, _, [] => []
  | fuel + 1, atStart, c :: rest =>
    if atStart then
      match tryHeader (c :: rest) with
      | some (g, rest2) => '*' :: g ++ '*' :: headerSub fuel false rest2
      | none => c :: headerSub fuel (c == '\n') rest
    else c :: headerSub fuel (c == '\n') rest

/-- Try to match the bullet pattern at a line start: greedy (possibly
empty) whitespace, a literal star, then mandatory greedy whitespace.
Returns whether the last consumed character is a newline (then the
resume position is again a line start) and the remainder. -/
def tryBullet (l : List Char) : Option (Bool × List Char) :=
  match l.dropWhile isWS with
  | '*' :: r2 =>
    match (r2.takeWhile isWS).getLast? with
    | none => none
    | some c => some (c == '\n', r2.dropWhile isWS)
  | _ => none

/-- Third re.sub pass (MULTILINE): at every line-start position try the
bullet pattern and replace a match with the normalized bullet of two
spaces, a dash and a space. -/
def bulletSub : Nat → Bool → List Char → List Char
  | 0, _, l => l
  | _ + 1, _, [] => []
  | fuel + 1, atStart, c :: rest =>
    if atStart then
      match tryBullet (c :: rest) with
      | some (nl, rest2) =>
        ' ' :: ' ' :: '-' :: ' ' :: bulletSub fuel nl rest2
      | none => c :: bulletSub fuel (c == '\n') rest
    else c :: bulletSub fuel (c == '\n') rest

/-- format_changelog_for_slack: the three substitution passes in source
order, links first, then headers, then list bullets. -/
def format_changelog_for_slack (changelog : String) : String :=
  let l1 := linkSub changelog.data.length changelog.data
  let l2 := headerSub l1.length true l1
  let l3 := bulletSub l2.length true l2
  String.mk l3


theorem takeWhile_append_stop (p : Char → Bool) :
    ∀ (xs : List Char) (y : Char) (ys : List Char),
      (∀ a ∈ xs, p a = true) → p y = false →
      (xs ++ y :: ys).takeWhile p = xs ∧ (xs ++ y :: ys).dropWhile p = y :: ys := by
  intro xs
  induction xs with
  | nil =>
    intro y ys _ hy
    constructor
    · simp [List.takeWhile_cons, hy]
    · simp [List.dropWhile_cons, hy]
  | cons a rest ih =>
    intro y ys hall hy
    have ha : p a = true := hall a (List.mem_cons_self a rest)
    obtain ⟨h1, h2⟩ := ih y ys (fun b hb => hall b (List.mem_cons_of_mem a hb)) hy
    constructor
    · simp [List.takeWhile_cons, ha, h1]
    · simp [List.dropWhile_cons, ha, h2]

theorem takeWhile_all_true (p : Char → Bool) :
    ∀ l : List Char, (∀ a ∈ l, p a = true) →
      l.takeWhile p = l ∧ l.dropWhile p = [] := by
  intro l
  induction l with
  | nil => intro _; exact ⟨rfl, rfl⟩
  | cons a rest ih =>
    intro hall
    have ha : p a = true := hall a (List.mem_cons_self a rest)
    obtain ⟨h1, h2⟩ := ih (fun b hb => hall b (List.mem_cons_of_mem a hb))
    constructor
    · simp [List.takeWhile_cons, ha, h1]
    · simp [List.dropWhile_cons, ha, h2]

theorem linkSub_nil (fuel : Nat) : linkSub fuel [] = [] := by
  cases fuel <;> rfl

theorem headerSub_nil (fuel : Nat) (b : Bool) : headerSub fuel b [] = [] := by
  cases fuel <;> rfl

theorem bulletSub_nil (fuel : Nat) (b : Bool) : bulletSub fuel b [] = [] := by
  cases fuel <;> rfl

theorem linkSub_no_bracket :
    ∀ (fuel : Nat) (l : List Char), '[' ∉ l → linkSub fuel l = l := by
  intro fuel l
  induction l generalizing fuel with
  | nil => intro _; exact linkSub_nil fuel
  | cons c rest ih =>
    intro h
    have hc : ¬ c = '[' := fun hc => h (hc ▸ List.mem_cons_self c rest)
    cases fuel with
    | zero => rfl
    | succ f =>
      simp only [linkSub, if_neg hc]
      rw [ih f (fun hm => h (List.mem_cons_of_mem c hm))]

theorem splitUntil_append (stop : Char) :
    ∀ (pre post : List Char), stop ∉ pre →
      splitUntil stop (pre ++ stop :: post) = some (pre, post) := by
  intro pre
  induction pre with
  | nil =>
    intro post _
    simp [splitUntil]
  | cons c rest ih =>
    intro post h
    have hc : ¬ c = stop := fun hcs => h (hcs ▸ List.mem_cons_self c rest)
    simp only [List.cons_append, splitUntil, if_neg hc, List.append_eq,
      ih post (fun hm => h (List.mem_cons_of_mem c hm))]

theorem tryLink_eq (text url rest : List Char)
    (ht : text ≠ []) (ht2 : ']' ∉ text) (hu : url ≠ []) (hu2 : ')' ∉ url) :
    tryLink (text ++ ']' :: '(' :: (url ++ ')' :: rest)) =
      some (text, url, rest) := by
  unfold tryLink
  rw [splitUntil_append ']' text ('(' :: (url ++ ')' :: rest)) ht2]
  have htE : text.isEmpty = false := by
    cases text with
    | nil => exact absurd rfl ht
    | cons a b => rfl
  have huE : url.isEmpty = false := by
    cases url with
    | nil => exact absurd rfl hu
    | cons a b => rfl
  simp only [htE, Bool.false_eq_true, if_false,
    splitUntil_append ')' url rest hu2, huE]

theorem linkSub_link (fuel : Nat) (text url : List Char)
    (ht : text ≠ []) (ht2 : ']' ∉ text) (hu : url ≠ []) (hu2 : ')' ∉ url) :
    linkSub (fuel + 1) ('[' :: (text ++ ']' :: '(' :: (url ++ [')']))) =
      '<' :: (url ++ '|' :: (text ++ ['>'])) := by
  have htl := tryLink_eq text url [] ht ht2 hu hu2
  simp only [linkSub, if_pos rfl, htl, if_true]
  rw [linkSub_nil fuel]
  simp [List.cons_append, List.append_assoc]

theorem tryHeader_not_hash (c : Char) (rest : List Char) (hc : c ≠ '#') :
    tryHeader (c :: rest) = none := by
  have hcb : (c == '#') = false := by
    simp only [beq_eq_false_iff_ne, ne_eq]
    exact hc
  simp only [tryHeader, List.takeWhile_cons, hcb, Bool.false_eq_true, if_false]
  simp

theorem tryBullet_not_bullet (c : Char) (rest : List Char)
    (hws : isWS c = false) (hc : c ≠ '*') :
    tryBullet (c :: rest) = none := by
  unfold tryBullet
  rw [List.dropWhile_cons, if_neg (by simp [hws])]
  split
  · rename_i r2 heq
    injection heq with h1 h2
    exact absurd h1 hc
  · rfl

theorem headerSub_no_newline :
    ∀ (fuel : Nat) (l : List Char), '\n' ∉ l → headerSub fuel false l = l := by
  intro fuel l
  induction l generalizing fuel with
  | nil => intro _; exact headerSub_nil fuel false
  | cons c rest ih =>
    intro h
    cases fuel with
    | zero => rfl
    | succ f =>
      have hcn : (c == '\n') = false := by
        simp only [beq_eq_false_iff_ne, ne_eq]
        intro hc; exact h (hc ▸ List.mem_cons_self c rest)
      simp only [headerSub, Bool.false_eq_true, if_false, hcn]
      rw [ih f (fun hm => h (List.mem_cons_of_mem c hm))]

theorem bulletSub_no_newline :
    ∀ (fuel : Nat) (l : List Char), '\n' ∉ l → bulletSub fuel false l = l := by
  intro fuel l
  induction l generalizing fuel with
  | nil => intro _; exact bulletSub_nil fuel false
  | cons c rest ih =>
    intro h
    cases fuel with
    | zero => rfl
    | succ f =>
      have hcn : (c == '\n') = false := by
        simp only [beq_eq_false_iff_ne, ne_eq]
        intro hc; exact h (hc ▸ List.mem_cons_self c rest)
      simp only [bulletSub, Bool.false_eq_true, if_false, hcn]
      rw [ih f (fun hm => h (List.mem_cons_of_mem c hm))]

theorem headerSub_line_id (fuel : Nat) (c : Char) (rest : List Char)
    (hc : c ≠ '#') (hnl : '\n' ∉ c :: rest) :
    headerSub fuel true (c :: rest) = c :: rest := by
  cases fuel with
  | zero => rfl
  | succ f =>
    have h1 := tryHeader_not_hash c rest hc
    have hcn : (c == '\n') = false := by
      simp only [beq_eq_false_iff_ne, ne_eq]
      intro h; exact hnl (h ▸ List.mem_cons_self c rest)
    simp only [headerSub, if_true, h1, hcn]
    rw [headerSub_no_newline f rest (fun h => hnl (List.mem_cons_of_mem c h))]

theorem bulletSub_line_id (fuel : Nat) (c : Char) (rest : List Char)
    (hws : isWS c = false) (hc : c ≠ '*') (hnl : '\n' ∉ c :: rest) :
    bulletSub fuel true (c :: rest) = c :: rest := by
  cases fuel with
  | zero => rfl
  | succ f =>
    have h1 := tryBullet_not_bullet c rest hws hc
    have hcn : (c == '\n') = false := by
      simp only [beq_eq_false_iff_ne, ne_eq]
      intro h; exact hnl (h ▸ List.mem_cons_self c rest)
    simp only [bulletSub, if_true, h1, hcn]
    rw [bulletSub_no_newline f rest (fun h => hnl (List.mem_cons_of_mem c h))]

theorem drop_length_append (l1 l2 : List Char) (n : Nat) (h : l1.length = n) :
    (l1 ++ l2).drop n = l2 := by
  subst h
  exact List.drop_left l1 l2

theorem tryHeader_header (k : Nat) (text : List Char)
    (hk1 : 1 ≤ k) (hk6 : k ≤ 6) (htne : text ≠ [])
    (hh : ∀ c, text.head? = some c → isWS c = false)
    (hnl : '\n' ∉ text) :
    tryHeader (List.replicate k '#' ++ ' ' :: text) = some (text, []) := by
  obtain ⟨hT, _⟩ := takeWhile_append_stop (fun c => c == '#')
    (List.replicate k '#') ' ' text
    (fun a ha => by rw [List.eq_of_mem_replicate ha]; rfl)
    (by rfl)
  cases text with
  | nil => exact absurd rfl htne
  | cons d r2 =>
    have hd : isWS d = false := hh d rfl
    have hr2 : ∀ a ∈ r2, (a != '\n') = true := by
      intro a ha
      simp only [bne_iff_ne, ne_eq]
      intro heq
      exact hnl (heq ▸ List.mem_cons_of_mem d ha)
    obtain ⟨hTW, hDW⟩ := takeWhile_all_true (fun c => c != '\n') r2 hr2
    have hdrop : (List.replicate k '#' ++ ' ' :: d :: r2).drop k = ' ' :: d :: r2 :=
      drop_length_append _ _ k (by simp)
    have hw : (' ' :: d :: r2).takeWhile isWS = [' '] := by
      rw [List.takeWhile_cons, if_pos (by rfl), List.takeWhile_cons,
        if_neg (by simp [hd])]
    have hdw : (' ' :: d :: r2).dropWhile isWS = d :: r2 := by
      rw [List.dropWhile_cons, if_pos (by rfl), List.dropWhile_cons,
        if_neg (by simp [hd])]
    simp only [tryHeader, hT, List.length_replicate]
    rw [if_neg (by omega : ¬ (k = 0 ∨ 6 < k))]
    rw [hdrop, hw, hdw]
    simp only [List.isEmpty_cons, Bool.false_eq_true, if_false, hTW, hDW]

theorem headerSub_header (fuel k : Nat) (text : List Char)
    (hk6 : k + 1 ≤ 6) (htne : text ≠ [])
    (hh : ∀ c, text.head? = some c → isWS c = false)
    (hnl : '\n' ∉ text) :
    headerSub (fuel + 1) true ('#' :: (List.replicate k '#' ++ ' ' :: text)) =
      '*' :: (text ++ ['*']) := by
  have hth := tryHeader_header (k + 1) text (by omega) hk6 htne hh hnl
  rw [List.replicate_succ, List.cons_append] at hth
  simp only [headerSub, if_true, hth]
  rw [headerSub_nil fuel false]
  simp [List.cons_append]

theorem tryBullet_bullet (ws item : List Char)
    (hws : ∀ c ∈ ws, isWS c = true)
    (hitem : ∀ c, item.head? = some c → isWS c = false) :
    tryBullet (ws ++ '*' :: ' ' :: item) = some (false, item) := by
  obtain ⟨_, hD⟩ := takeWhile_append_stop isWS ws '*' (' ' :: item) hws (by rfl)
  unfold tryBullet
  rw [hD]
  cases item with
  | nil => rfl
  | cons d r =>
    have hd : isWS d = false := hitem d rfl
    have hTW : (' ' :: d :: r).takeWhile isWS = [' '] := by
      rw [List.takeWhile_cons, if_pos (by rfl), List.takeWhile_cons,
        if_neg (by simp [hd])]
    have hDW : (' ' :: d :: r).dropWhile isWS = d :: r := by
      rw [List.dropWhile_cons, if_pos (by rfl), List.dropWhile_cons,
        if_neg (by simp [hd])]
    simp only [hTW, hDW, List.getLast?_singleton]
    rfl

theorem bulletSub_bullet (fuel : Nat) (ws item : List Char)
    (hws : ∀ c ∈ ws, isWS c = true)
    (hitem : ∀ c, item.head? = some c → isWS c = false)
    (hinl : '\n' ∉ item) :
    bulletSub (fuel + 1) true (ws ++ '*' :: ' ' :: item) =
      ' ' :: ' ' :: '-' :: ' ' :: item := by
  have htb := tryBullet_bullet ws item hws hitem
  cases ws with
  | nil =>
    simp only [List.nil_append] at htb ⊢
    simp only [bulletSub, if_true, htb]
    rw [bulletSub_no_newline fuel item hinl]
  | cons w ws2 =>
    simp only [List.cons_append] at htb ⊢
    simp only [bulletSub, if_true, htb]
    rw [bulletSub_no_newline fuel item hinl]

theorem bulletSub_emph (fuel : Nat) (text : List Char)
    (htne : text ≠ [])
    (hh : ∀ c, text.head? = some c → isWS c = false)
    (hnl : '\n' ∉ text) :
    bulletSub fuel true ('*' :: (text ++ ['*'])) = '*' :: (text ++ ['*']) := by
  cases fuel with
  | zero => rfl
  | succ f =>
    have htb : tryBullet ('*' :: (text ++ ['*'])) = none := by
      unfold tryBullet
      rw [List.dropWhile_cons, if_neg (by simp [isWS])]
      cases text with
      | nil => exact absurd rfl htne
      | cons d r =>
        have hd := hh d rfl
        have hTW : ((d :: r) ++ ['*']).takeWhile isWS = [] := by
          rw [List.cons_append, List.takeWhile_cons, if_neg (by simp [hd])]
        simp only [hTW]
        rfl
    have hnl2 : '\n' ∉ text ++ ['*'] := by
      simp only [List.mem_append, List.mem_singleton]
      rintro (h | h)
      · exact hnl h
      · exact absurd h (by decide)
    simp only [bulletSub, if_true, htb]
    rw [show ('*' == '\n') = false from rfl]
    rw [bulletSub_no_newline f (text ++ ['*']) hnl2]

/-- C9: format_changelog_for_slack rewrites a markdown link into the
Slack hyperlink form with url and text swapped around a pipe; turns a
heading line of one to six hash marks, whitespace and heading text into
the heading text wrapped in stars; leaves a line whose hash marks are
not at the line start untouched; and normalizes a bullet line of
optional leading whitespace, a star and a space into the two-space dash
bullet. -/
theorem claim_C9_formatter :
    (∀ (s text url : String),
      s.data = '[' :: (text.data ++ ']' :: '(' :: (url.data ++ [')'])) →
      text.data ≠ [] → ']' ∉ text.data → '\n' ∉ text.data →
      url.data ≠ [] → ')' ∉ url.data → '\n' ∉ url.data →
      format_changelog_for_slack s = "<" ++ url ++ "|" ++ text ++ ">") ∧
    (∀ (s text : String) (k : Nat),
      1 ≤ k → k ≤ 6 →
      s.data = List.replicate k '#' ++ ' ' :: text.data →
      text.data ≠ [] →
      (∀ c, text.data.head? = some c → isWS c = false) →
      '\n' ∉ text.data → '[' ∉ text.data →
      format_changelog_for_slack s = "*" ++ text ++ "*") ∧
    (∀ s : String, '\n' ∉ s.data → '[' ∉ s.data →
      (∀ c, s.data.head? = some c → isWS c = false ∧ c ≠ '#' ∧ c ≠ '*') →
      format_changelog_for_slack s = s) ∧
    (∀ (s ws item : String),
      s.data = ws.data ++ '*' :: ' ' :: item.data →
      (∀ c ∈ ws.data, isWS c = true) → '\n' ∉ ws.data →
      (∀ c, item.data.head? = some c → isWS c = false) →
      '\n' ∉ item.data → '[' ∉ item.data →
      format_changelog_for_slack s = "  - " ++ item) := by
  refine ⟨?_, ?_, ?_, ?_⟩
  · intro s text url hs ht1 ht2 ht3 hu1 hu2 hu3
    have hnl2 : '\n' ∉ '<' :: (url.data ++ '|' :: (text.data ++ ['>'])) := by
      simp only [List.mem_cons, List.mem_append, List.mem_singleton]
      rintro (h | h | h | h | h) <;>
        first
          | exact hu3 h
          | exact ht3 h
          | (revert h; decide)
    simp only [format_changelog_for_slack, hs, List.length_cons]
    rw [linkSub_link _ text.data url.data ht1 ht2 hu1 hu2]
    rw [headerSub_line_id _ '<' _ (by decide) hnl2]
    rw [bulletSub_line_id _ '<' _ (by decide) (by decide) hnl2]
    apply String.ext
    simp only [show "<".data = ['<'] from rfl, show "|".data = ['|'] from rfl,
      show ">".data = ['>'] from rfl, String.data_append,
      List.cons_append, List.append_assoc, List.nil_append]
  · intro s text k hk1 hk6 hs htne hh hnl hbr
    have hDbr : '[' ∉ List.replicate k '#' ++ ' ' :: text.data := by
      simp only [List.mem_append, List.mem_cons]
      rintro (h | h | h)
      · exact absurd (List.eq_of_mem_replicate h) (by decide)
      · exact absurd h (by decide)
      · exact hbr h
    simp only [format_changelog_for_slack, hs]
    rw [linkSub_no_bracket _ _ hDbr]
    cases k with
    | zero => omega
    | succ k2 =>
      rw [List.replicate_succ, List.cons_append]
      simp only [List.length_cons]
      rw [headerSub_header _ k2 text.data hk6 htne hh hnl]
      rw [bulletSub_emph _ text.data htne hh hnl]
      apply String.ext
      simp only [show "*".data = ['*'] from rfl, String.data_append,
        List.cons_append, List.append_assoc, List.nil_append]
  · intro s hnl hbr hhead
    cases hdata : s.data with
    | nil =>
      simp only [format_changelog_for_slack, hdata]
      exact String.ext (by rw [hdata]; rfl)
    | cons c rest =>
      obtain ⟨hws, hc1, hc2⟩ := hhead c (by rw [hdata]; rfl)
      simp only [format_changelog_for_slack, hdata]
      rw [linkSub_no_bracket _ _ (hdata ▸ hbr)]
      rw [headerSub_line_id _ c rest hc1 (hdata ▸ hnl)]
      rw [bulletSub_line_id _ c rest hws hc2 (hdata ▸ hnl)]
      exact String.ext (by rw [hdata])
  · intro s ws item hs hws hwsnl hih hinl hibr
    have hnlD : '\n' ∉ ws.data ++ '*' :: ' ' :: item.data := by
      simp only [List.mem_append, List.mem_cons]
      rintro (h | h | h | h)
      · exact hwsnl h
      · exact absurd h (by decide)
      · exact absurd h (by decide)
      · exact hinl h
    have hbrD : '[' ∉ ws.data ++ '*' :: ' ' :: item.data := by
      simp only [List.mem_append, List.mem_cons]
      rintro (h | h | h | h)
      · exact absurd (hws _ h) (by decide)
      · exact absurd h (by decide)
      · exact absurd h (by decide)
      · exact hibr h
    simp only [format_changelog_for_slack, hs]
    rw [linkSub_no_bracket _ _ hbrD]
    cases hwd : ws.data with
    | nil =>
      rw [hwd] at hnlD
      simp only [List.nil_append] at hnlD ⊢
      rw [headerSub_line_id _ '*' (' ' :: item.data) (by decide) hnlD]
      simp only [List.length_cons]
      have hb := bulletSub_bullet (item.data.length + 1) [] item.data
        (fun c hc => nomatch hc) hih hinl
      simp only [List.nil_append] at hb
      rw [hb]
      apply String.ext
      simp only [show "  - ".data = [' ', ' ', '-', ' '] from rfl,
        String.data_append, List.cons_append, List.nil_append]
    | cons w ws2 =>
      rw [hwd] at hnlD hws
      simp only [List.cons_append] at hnlD ⊢
      have hwh := hws w (List.mem_cons_self w ws2)
      have hwne : w ≠ '#' := by
        intro he
        rw [he] at hwh
        exact absurd hwh (by decide)
      rw [headerSub_line_id _ w (ws2 ++ '*' :: ' ' :: item.data) hwne hnlD]
      simp only [List.length_cons]
      have hb := bulletSub_bullet ((ws2 ++ '*' :: ' ' :: item.data).length)
        (w :: ws2) item.data hws hih hinl
      simp only [List.cons_append] at hb
      rw [hb]
      apply String.ext
      simp only [show "  - ".data = [' ', ' ', '-', ' '] from rfl,
        String.data_append, List.cons_append, List.nil_append]

/-- Witness for C9 at the three documented examples plus one line with a
mid-line hash sequence. -/
theorem claim_C9_formatter_witness :
    format_changelog_for_slack "[x](http://y)" = "<http://y|x>" ∧
    format_changelog_for_slack "#### Notes" = "*Notes*" ∧
    format_changelog_for_slack "a # b" = "a # b" ∧
    format_changelog_for_slack "* item" = "  - item" := by
  obtain ⟨hA, hB, hC, hD⟩ := claim_C9_formatter
  refine ⟨?_, ?_, ?_, ?_⟩
  · have := hA "[x](http://y)" "x" "http://y" (by decide) (by decide)
      (by decide) (by decide) (by decide) (by decide) (by decide)
    rw [this]
    decide
  · have := hB "#### Notes" "Notes" 4 (by decide) (by decide) (by decide)
      (by decide) (by intro c hc; cases hc; decide) (by decide) (by decide)
    rw [this]
    decide
  · exact hC "a # b" (by decide) (by decide)
      (by intro c hc; cases hc; exact ⟨by decide, by decide, by decide⟩)
  · have := hD "* item" "" "item" (by decide)
      (fun c hc => nomatch hc) (by decide)
      (by intro c hc; cases hc; decide) (by decide) (by decide)
    rw [this]
    decide
